import Mathlib

/-
Verification development for the eCFR Analyzer repository.

The core under study is the Query Facade of the analyzer: the function
supabaseHandler (equivalently the POST route handler, which runs the same
algorithm server side), the two RPC readers getMetricTotalForPairs and
getMetricTotalForTitle, the statically sorted agency registry, and the
MultiSelect cap of the presentation layer.  The backing Supabase instance is
modelled as an environment of RPC functions (RpcEnv).  JavaScript Map and
object key/value semantics are modelled by association lists with
first-match lookup, in-place update of an existing key and append of a fresh
key, which is exactly the observable behaviour of Map.set, Map.get and
object property assignment for the string keys used by the code.  The
localeCompare based comparisons of the code are modelled by lexicographic
comparison of the character sequences (for the ISO dates and names involved
both orders are total orders on strings).  Numeric values are modelled by
rationals.
-/

namespace ECFR

/-- Lexicographic comparison of character lists, by code point. -/
def charListLe : List Char → List Char → Bool
  | [], _ => true
  | _ :: _, [] => false
  | a :: as, b :: bs =>
    if a.toNat < b.toNat then true
    else if b.toNat < a.toNat then false
    else charListLe as bs

/-- Model of the ascending localeCompare comparator on strings. -/
def strLe (a b : String) : Bool := charListLe a.data b.data

/-- First-match lookup in an association list: the observable behaviour of
JavaScript Map.get and of object property reads (keys are unique in the maps
the code builds, so first match is the match). -/
def alook {κ α : Type} [DecidableEq κ] : List (κ × α) → κ → Option α
  | [], _ => none
  | (k1, v) :: rest, k => if k1 = k then some v else alook rest k

/-- JavaScript Map.set and object property assignment: replace the value of
an existing key in place, append a fresh key at the end. -/
def mapSet {κ α : Type} [DecidableEq κ] : List (κ × α) → κ → α → List (κ × α)
  | [], k, v => [(k, v)]
  | (k1, w) :: rest, k, v =>
    if k1 = k then (k, v) :: rest else (k1, w) :: mapSet rest k v

/-- In-place update of the value stored at a key, if present (the observable
behaviour of mutating the object returned by Map.get). -/
def mapUpd {κ α : Type} [DecidableEq κ] (f : α → α) : List (κ × α) → κ → List (κ × α)
  | [], _ => []
  | (k1, w) :: rest, k =>
    if k1 = k then (k1, f w) :: rest else (k1, w) :: mapUpd f rest k

/-- A data point of the facade: the date plus the non-date properties of the
JavaScript object.  A cell value of none is the null sentinel, some q is a
number. -/
structure DataPoint where
  date : String
  cells : List (String × Option ℚ)
deriving DecidableEq

/-- Object.values(dataPoint).find(v then typeof v is number): the first
numeric value among the non-date properties (the date string itself is never
numeric, so keeping it out of cells is faithful). -/
def findNumeric : List (String × Option ℚ) → Option ℚ
  | [] => none
  | (_, some v) :: _ => some v
  | (_, none) :: rest => findNumeric rest

/-- The JavaScript expression x or-else 0 applied to a found numeric value:
undefined becomes 0, the number 0 also yields 0, any other number is kept. -/
def jsNumOrZero : Option ℚ → ℚ
  | some v => v
  | none => 0

/-- The JavaScript expression x or-else null applied to a found numeric
value: undefined becomes null, and, because 0 is falsy, the number 0 ALSO
becomes null; any other number is kept. -/
def jsOrNull : Option ℚ → Option ℚ
  | some v => if v = 0 then none else some v
  | none => none

/-- Assignment dataPoint[key] = value. -/
def setDPcell (dp : DataPoint) (k : String) (v : Option ℚ) : DataPoint :=
  ⟨dp.date, mapSet dp.cells k v⟩

/-- Assignment map.get(date)[key] = value (no-op when the date is absent;
the code only performs it on present dates). -/
def updCell (m : List (String × DataPoint)) (d k : String) (v : Option ℚ) :
    List (String × DataPoint) :=
  mapUpd (fun dp => setDPcell dp k v) m d

/-- One insertion step of the sort by a string key. -/
def insertByKey {α : Type} (key : α → String) (a : α) : List α → List α
  | [] => [a]
  | x :: xs => if strLe (key a) (key x) then a :: x :: xs else x :: insertByKey key a xs

/-- Model of array.sort with an ascending localeCompare comparator on a
string key.  All lists the code sorts have pairwise distinct keys, so any
comparison sort produces this result. -/
def sortByKey {α : Type} (key : α → String) : List α → List α
  | [] => []
  | x :: xs => insertByKey key x (sortByKey key xs)

/-- One row returned by the metric RPCs. -/
structure YearMetric where
  target_date : String
  total_metric : ℚ
deriving DecidableEq

/-- The backing store boundary: the two Supabase RPCs, each returning either
data or an error. -/
structure RpcEnv where
  pairsRpc : List String → List String → String → Except String (List YearMetric)
  titleRpc : String → String → Except String (List YearMetric)

/-- The key string of a pair query result: titles[0]-chapters[0] (an absent
head renders as undefined in JavaScript). -/
def pairKeyOf (titles chapters : List String) : String :=
  titles.headD "undefined" ++ "-" ++ chapters.headD "undefined"

/-- getMetricTotalForPairs: call the RPC, return the empty series on error,
otherwise group rows into one data point per date keyed by the pair key and
return the data points sorted by date. -/
def getMetricTotalForPairs (env : RpcEnv) (titles chapters : List String)
    (metric : String) : List DataPoint :=
  match env.pairsRpc titles chapters metric with
  | .error _ => []
  | .ok data =>
    let dataByDate := data.foldl (fun m row =>
      let m1 := if (alook m row.target_date).isSome then m
                else mapSet m row.target_date ⟨row.target_date, []⟩
      updCell m1 row.target_date (pairKeyOf titles chapters) (some row.total_metric)) []
    sortByKey (fun dp => dp.date) (dataByDate.map Prod.snd)

/-- getMetricTotalForTitle: same shape, keyed by the title itself. -/
def getMetricTotalForTitle (env : RpcEnv) (title metric : String) : List DataPoint :=
  match env.titleRpc title metric with
  | .error _ => []
  | .ok data =>
    let dataByDate := data.foldl (fun m row =>
      let m1 := if (alook m row.target_date).isSome then m
                else mapSet m row.target_date ⟨row.target_date, []⟩
      updCell m1 row.target_date title (some row.total_metric)) []
    sortByKey (fun dp => dp.date) (dataByDate.map Prod.snd)

/-- One reference of an agency in the registry JSON: a title number and an
optional chapter. -/
structure CfrRef where
  title : Nat
  chapter : Option String
deriving DecidableEq

/-- One agency of the registry JSON. -/
structure Agency where
  name : String
  cfr_references : List CfrRef
deriving DecidableEq

/-- The exported agencies constant: a copy of the registry array sorted
ascending by name. -/
def agenciesOf (registry : List Agency) : List Agency :=
  sortByKey (fun a => a.name) registry

/-- The numeric value the facade extracts from a data point when combining
pair results: the first numeric property, with a falsy fallback to 0. -/
def valueOfPoint (dp : DataPoint) : ℚ := jsNumOrZero (findNumeric dp.cells)

/-- One step of the per-agency combination: ensure the date has a
total/count entry, then add the value and increment the count. -/
def bump (m : List (String × (ℚ × Nat))) (d : String) (v : ℚ) :
    List (String × (ℚ × Nat)) :=
  let m1 := if (alook m d).isSome then m else mapSet m d (0, 0)
  mapUpd (fun tc => (tc.1 + v, tc.2 + 1)) m1 d

/-- The aggregate the facade reports for one date of one agency: the mean of
the contributions for readability_score (null when the count is zero, which
cannot happen for an entry that exists), the sum for every other metric. -/
def aggrOf (metric : String) (tc : ℚ × Nat) : Option ℚ :=
  if metric = "readability_score" then
    (if 0 < tc.2 then some (tc.1 / (tc.2 : ℚ)) else none)
  else some tc.1

/-- Combine all pair results of one agency: tally total and count per date,
then emit one data point per date carrying the aggregate under the agency
name. -/
def combineAgencyPairs (agencyName metric : String)
    (pairResults : List (List DataPoint)) : List DataPoint :=
  let agencyDataByDate := pairResults.foldl (fun m pairData =>
    pairData.foldl (fun m1 dp => bump m1 dp.date (valueOfPoint dp)) m) []
  agencyDataByDate.map (fun e => ⟨e.1, [(agencyName, aggrOf metric e.2)]⟩)

/-- The per-reference query results of one agency: one call of
getMetricTotalForPairs per reference that has a chapter. -/
def pairResultsOf (env : RpcEnv) (ags : List Agency) (metric name : String) :
    List (List DataPoint) :=
  match ags.find? (fun a => a.name == name) with
  | none => []
  | some a =>
    (a.cfr_references.filter (fun r => r.chapter.isSome)).map (fun r =>
      getMetricTotalForPairs env [toString r.title] [r.chapter.getD ""] metric)

/-- The series the facade computes for one selected agency name: empty when
the agency is unknown or has no references, otherwise the combined pair
results over the references that have a chapter. -/
def agencySeries (env : RpcEnv) (ags : List Agency) (metric name : String) :
    List DataPoint :=
  match ags.find? (fun a => a.name == name) with
  | none => []
  | some a =>
    if a.cfr_references.isEmpty then []
    else
      let validRefs := a.cfr_references.filter (fun r => r.chapter.isSome)
      let pairResults := validRefs.map (fun r =>
        getMetricTotalForPairs env [toString r.title] [r.chapter.getD ""] metric)
      combineAgencyPairs name metric pairResults

/-- agencyResults: one series per selected agency, in selection order. -/
def agencyResultsOf (env : RpcEnv) (ags : List Agency) (items : List String)
    (metric : String) : List (List DataPoint) :=
  items.map (fun name => agencySeries env ags metric name)

/-- titleResults: one series per selected title, in selection order. -/
def titleResultsOf (env : RpcEnv) (items : List String) (metric : String) :
    List (List DataPoint) :=
  items.map (fun t => getMetricTotalForTitle env t metric)

/-- The series list the facade computes for a request, by branch. -/
def seriesListOf (env : RpcEnv) (ags : List Agency) (queryBy : String)
    (items : List String) (metric : String) : List (List DataPoint) :=
  if queryBy = "agency" then agencyResultsOf env ags items metric
  else titleResultsOf env items metric

/-- The set of all dates seen in any series, in first-seen order (a
JavaScript Set preserves insertion order). -/
def allDatesOf (seriesList : List (List DataPoint)) : List String :=
  seriesList.foldl (fun acc s =>
    s.foldl (fun acc1 dp => if dp.date ∈ acc1 then acc1 else acc1 ++ [dp.date]) acc) []

/-- The initial cells of a fresh row: every selected item set to null. -/
def initCells (items : List String) : List (String × Option ℚ) :=
  items.foldl (fun cs g => mapSet cs g none) []

/-- finalDataByDate after initialisation: one row per date, all selected
items null. -/
def initRows (items : List String) (dates : List String) :
    List (String × DataPoint) :=
  dates.foldl (fun m d => mapSet m d ⟨d, initCells items⟩) []

/-- The fill-in loop of the agency branch: copy every non-date property of
every series data point into the row of its date. -/
def fillAgency (m : List (String × DataPoint))
    (seriesList : List (List DataPoint)) : List (String × DataPoint) :=
  seriesList.foldl (fun m1 s =>
    s.foldl (fun m2 dp =>
      dp.cells.foldl (fun m3 kv => updCell m3 dp.date kv.1 kv.2) m2) m1) m

/-- The fill-in loop of the cfr-title branch: for each series, indexed by
its selected title, write the first numeric value of each data point, with
the falsy or-else-null fallback, into the row of its date. -/
def fillTitle (m : List (String × DataPoint))
    (seriesWithTitles : List (List DataPoint × String)) : List (String × DataPoint) :=
  seriesWithTitles.foldl (fun m1 p =>
    p.1.foldl (fun m2 dp =>
      updCell m2 dp.date p.2 (jsOrNull (findNumeric dp.cells))) m1) m

/-- The Query Facade: supabaseHandler of the client library and POST of the
API route (both run this algorithm).  The 500ms and 1s pacing delays of the
code only sequence the RPC calls in time and have no effect on the value
computed. -/
def supabaseHandler (env : RpcEnv) (ags : List Agency) (queryBy : String)
    (selectedItems : List String) (selectedMetric : String) : List DataPoint :=
  if queryBy = "agency" then
    let agencyResults := agencyResultsOf env ags selectedItems selectedMetric
    let rowsMap := fillAgency (initRows selectedItems (allDatesOf agencyResults)) agencyResults
    sortByKey (fun dp => dp.date) (rowsMap.map Prod.snd)
  else if queryBy = "cfr-title" then
    let titleResults := titleResultsOf env selectedItems selectedMetric
    let rowsMap := fillTitle (initRows selectedItems (allDatesOf titleResults))
      (titleResults.zip selectedItems)
    sortByKey (fun dp => dp.date) (rowsMap.map Prod.snd)
  else []

/-- Concatenation of a list of lists (used to flatten the nested fill and
date-collection loops for reasoning). -/
def catLists {α : Type} : List (List α) → List α
  | [] => []
  | l :: ls => l ++ catLists ls

/-- A flat list of cell writes (date, key, value) applied in order. -/
def applyWrites (m : List (String × DataPoint))
    (ws : List (String × String × Option ℚ)) : List (String × DataPoint) :=
  ws.foldl (fun m1 w => updCell m1 w.1 w.2.1 w.2.2) m

/-- The writes performed by the agency-branch fill-in loop, in order. -/
def writesA (seriesList : List (List DataPoint)) : List (String × String × Option ℚ) :=
  catLists (seriesList.map (fun s =>
    catLists (s.map (fun dp => dp.cells.map (fun kv => (dp.date, kv.1, kv.2))))))

/-- The writes performed by the cfr-title-branch fill-in loop, in order. -/
def writesT (seriesWithTitles : List (List DataPoint × String)) :
    List (String × String × Option ℚ) :=
  catLists (seriesWithTitles.map (fun p =>
    p.1.map (fun dp => (dp.date, p.2, jsOrNull (findNumeric dp.cells)))))

/-- The per-reference contributions at one date: the extracted numeric value
of every data point of every pair series whose date matches. -/
def perRefValuesAt (pairResults : List (List DataPoint)) (d : String) : List ℚ :=
  ((catLists pairResults).filter (fun dp => dp.date == d)).map valueOfPoint

/-- The date tally of the per-agency combination, as the code builds it:
one total/count entry per date over all pair results. -/
def tallyPairs (pairResults : List (List DataPoint)) : List (String × (ℚ × Nat)) :=
  pairResults.foldl (fun m pairData =>
    pairData.foldl (fun m1 dp => bump m1 dp.date (valueOfPoint dp)) m) []

/-- The contributions at one date within a single flat list of data
points. -/
def vsAt (dps : List DataPoint) (d : String) : List ℚ :=
  (dps.filter (fun dp => dp.date == d)).map valueOfPoint

/-- The merged table produced from a series list and a flat list of cell
writes: rows initialised over the union of dates and all selected items,
writes applied in order, rows sorted by date. -/
def mergedRows (items : List String) (L : List (List DataPoint))
    (ws : List (String × String × Option ℚ)) : List DataPoint :=
  sortByKey (fun dp => dp.date) ((applyWrites (initRows items (allDatesOf L)) ws).map Prod.snd)

/-- A backing store for concrete checks: the stored aggregate of title 1 at
2020-02-13 is the number zero. -/
def envZero : RpcEnv :=
  ⟨fun _ _ _ => .ok [], fun t _ => if t = "1" then .ok [⟨"2020-02-13", 0⟩] else .ok []⟩

/-- A registry for concrete checks: one agency with two chapter
references. -/
def regDeptX : List Agency :=
  [⟨"Department X", [⟨1, some "I"⟩, ⟨2, some "II"⟩]⟩]

/-- A backing store for concrete checks: the two references of Department X
contribute 100 and 150 (or 60 and 80 under the readability metric naming,
values are per metric irrelevant here) at 2020-02-13. -/
def envDeptX : RpcEnv :=
  ⟨fun ts _ _ =>
    if ts = ["1"] then .ok [⟨"2020-02-13", 100⟩]
    else if ts = ["2"] then .ok [⟨"2020-02-13", 150⟩]
    else .ok [],
   fun _ _ => .ok []⟩

/-- A backing store for concrete checks: the read for title 2 fails, title 1
succeeds. -/
def envFail : RpcEnv :=
  ⟨fun _ _ _ => .ok [],
   fun t _ => if t = "2" then .error "backend overload" else .ok [⟨"2018-02-13", 5⟩]⟩

/-- A registry for concrete checks: an agency whose only reference lacks a
chapter, next to one with a valid reference. -/
def regMixed : List Agency :=
  [⟨"No Chapters", [⟨5, none⟩]⟩, ⟨"Department X", [⟨1, some "I"⟩]⟩]

/-- The environment in which every failing read is replaced by an empty
result set: used to state that the facade treats read errors exactly as
absent data and never raises for partial data. -/
def errorsAsEmpty (env : RpcEnv) : RpcEnv :=
  ⟨fun ts cs m => match env.pairsRpc ts cs m with
    | .error _ => .ok []
    | .ok d => .ok d,
   fun t m => match env.titleRpc t m with
    | .error _ => .ok []
    | .ok d => .ok d⟩

/-- A backing store for concrete checks: every pair read fails. -/
def envPairsFail : RpcEnv :=
  ⟨fun _ _ _ => .error "backend overload", fun _ _ => .ok []⟩

/-- The natural key of a Section Metric Record. -/
structure RecordKey where
  title : Nat
  chapter : String
  sectionId : String
  snapshot_date : String
deriving DecidableEq

/-- The metric values of a Section Metric Record. -/
structure MetricValues where
  word_count : Nat
  mandate_count : Nat
  readability_score : ℚ
deriving DecidableEq

/-- Modelled from the spec: the Metrics Store upsert by natural key (title,
chapter, section, snapshot_date).  The ingestion scripts of the processing
folder are not among the repository sources available here; the spec
mandates that re-processing a snapshot performs a genuine upsert, replacing
the record stored under an existing key and inserting under a fresh one. -/
def upsertRecord (store : List (RecordKey × MetricValues)) (k : RecordKey)
    (v : MetricValues) : List (RecordKey × MetricValues) :=
  mapSet store k v

/-- Modelled from the spec: ingesting one snapshot upserts every produced
Section Metric Record into the Metrics Store, in order. -/
def ingestSnapshot (store : List (RecordKey × MetricValues))
    (records : List (RecordKey × MetricValues)) : List (RecordKey × MetricValues) :=
  records.foldl (fun s r => upsertRecord s r.1 r.2) store

/-- The default value of the maxSelections parameter of MultiSelect. -/
def defaultMaxSelections : Nat := 3

/-- handleSelectChange of the MultiSelect component: refuse to add a new
value once maxSelections options are selected, otherwise toggle the value. -/
def handleSelectChange (maxSelections : Nat) (selectedOptions : List String)
    (value : String) : List String :=
  if value ∉ selectedOptions ∧ maxSelections ≤ selectedOptions.length then
    selectedOptions
  else if value ∈ selectedOptions then
    selectedOptions.filter (fun item => item != value)
  else selectedOptions ++ [value]


/-! ### Association list lemmas -/

theorem alook_mapSet_self {κ α : Type} [DecidableEq κ] (m : List (κ × α)) (k : κ) (v : α) :
    alook (mapSet m k v) k = some v := by
  induction m with
  | nil => simp [mapSet, alook]
  | cons p rest ih =>
    by_cases h : p.1 = k <;> simp [mapSet, alook, h, ih]

theorem alook_mapSet_ne {κ α : Type} [DecidableEq κ] (m : List (κ × α)) {k k1 : κ} (v : α)
    (h : k1 ≠ k) : alook (mapSet m k v) k1 = alook m k1 := by
  induction m with
  | nil => simp [mapSet, alook, Ne.symm h]
  | cons p rest ih =>
    by_cases h2 : p.1 = k
    · simp [mapSet, alook, h2, Ne.symm h]
    · simp only [mapSet, if_neg h2]
      by_cases h3 : p.1 = k1 <;> simp [alook, h3, ih]

theorem alook_mapUpd_self {κ α : Type} [DecidableEq κ] (f : α → α) (m : List (κ × α)) (k : κ) :
    alook (mapUpd f m k) k = (alook m k).map f := by
  induction m with
  | nil => simp [mapUpd, alook]
  | cons p rest ih =>
    by_cases h : p.1 = k <;> simp [mapUpd, alook, h, ih]

theorem alook_mapUpd_ne {κ α : Type} [DecidableEq κ] (f : α → α) (m : List (κ × α)) {k k1 : κ}
    (h : k1 ≠ k) : alook (mapUpd f m k) k1 = alook m k1 := by
  induction m with
  | nil => simp [mapUpd, alook]
  | cons p rest ih =>
    by_cases h2 : p.1 = k
    · simp [mapUpd, alook, h2, Ne.symm h]
    · simp only [mapUpd, if_neg h2]
      by_cases h3 : p.1 = k1 <;> simp [alook, h3, ih]

theorem keys_mapUpd {κ α : Type} [DecidableEq κ] (f : α → α) (m : List (κ × α)) (k : κ) :
    (mapUpd f m k).map Prod.fst = m.map Prod.fst := by
  induction m with
  | nil => simp [mapUpd]
  | cons p rest ih =>
    by_cases h : p.1 = k <;> simp [mapUpd, h, ih]

theorem mapSet_of_absent {κ α : Type} [DecidableEq κ] {m : List (κ × α)} {k : κ} (v : α)
    (h : alook m k = none) : mapSet m k v = m ++ [(k, v)] := by
  induction m with
  | nil => simp [mapSet]
  | cons p rest ih =>
    by_cases h2 : p.1 = k
    · simp [alook, h2] at h
    · simp [alook, h2] at h
      simp [mapSet, h2, ih h]

theorem alook_append {κ α : Type} [DecidableEq κ] (m m2 : List (κ × α)) (k : κ) :
    alook (m ++ m2) k = (alook m k).or (alook m2 k) := by
  induction m with
  | nil => simp [alook]
  | cons p rest ih =>
    by_cases h : p.1 = k <;> simp [alook, h, ih]

theorem alook_eq_none_iff {κ α : Type} [DecidableEq κ] (m : List (κ × α)) (k : κ) :
    alook m k = none ↔ k ∉ m.map Prod.fst := by
  induction m with
  | nil => simp [alook]
  | cons p rest ih =>
    by_cases h : p.1 = k
    · simp [alook, h]
    · simp [alook, h, ih, Ne.symm h]

theorem alook_isSome_iff {κ α : Type} [DecidableEq κ] (m : List (κ × α)) (k : κ) :
    (alook m k).isSome ↔ k ∈ m.map Prod.fst := by
  rw [Option.isSome_iff_ne_none, Ne, alook_eq_none_iff]
  exact not_not

theorem alook_mem {κ α : Type} [DecidableEq κ] {m : List (κ × α)} {k : κ} {v : α}
    (h : alook m k = some v) : (k, v) ∈ m := by
  induction m with
  | nil => simp [alook] at h
  | cons p rest ih =>
    obtain ⟨a, b⟩ := p
    by_cases h2 : a = k
    · simp [alook, h2] at h
      simp [h2, h]
    · simp [alook, h2] at h
      simp [ih h]

theorem alook_of_mem_nodup {κ α : Type} [DecidableEq κ] {m : List (κ × α)} {k : κ} {v : α}
    (hnd : (m.map Prod.fst).Nodup) (h : (k, v) ∈ m) : alook m k = some v := by
  induction m with
  | nil => simp at h
  | cons p rest ih =>
    rw [List.map_cons, List.nodup_cons] at hnd
    rcases List.mem_cons.mp h with h1 | h1
    · simp [← h1, alook]
    · have hk : k ∈ rest.map Prod.fst := by
        have := List.mem_map_of_mem Prod.fst h1
        simpa using this
      have hne : p.1 ≠ k := by
        intro he
        exact hnd.1 (he ▸ hk)
      simp [alook, hne, ih hnd.2 h1]

theorem mapSet_self_of_alook {κ α : Type} [DecidableEq κ] {m : List (κ × α)} {k : κ} {v : α}
    (h : alook m k = some v) : mapSet m k v = m := by
  induction m with
  | nil => simp [alook] at h
  | cons p rest ih =>
    obtain ⟨a, b⟩ := p
    by_cases h2 : a = k
    · simp [alook, h2] at h
      simp [mapSet, h2, h]
    · simp [alook, h2] at h
      simp [mapSet, h2, ih h]

theorem keys_mapSet_present {κ α : Type} [DecidableEq κ] {m : List (κ × α)} {k : κ} (v : α)
    (h : (alook m k).isSome) : (mapSet m k v).map Prod.fst = m.map Prod.fst := by
  induction m with
  | nil => simp [alook] at h
  | cons p rest ih =>
    by_cases h2 : p.1 = k
    · simp [mapSet, h2]
    · simp [alook, h2] at h
      simp [mapSet, h2, ih h]

theorem keys_nodup_mapSet {κ α : Type} [DecidableEq κ] {m : List (κ × α)} (k : κ) (v : α)
    (h : (m.map Prod.fst).Nodup) : ((mapSet m k v).map Prod.fst).Nodup := by
  rcases h2 : alook m k with _ | w
  · rw [mapSet_of_absent v h2]
    rw [alook_eq_none_iff] at h2
    simp [List.nodup_append, h2, h]
  · rw [keys_mapSet_present v (by simp [h2])]
    exact h

theorem mem_mapSet {κ α : Type} [DecidableEq κ] {m : List (κ × α)} {k : κ} {v : α}
    {p : κ × α} (h : p ∈ mapSet m k v) : p ∈ m ∨ p = (k, v) := by
  induction m with
  | nil =>
    simp [mapSet] at h
    simp [h]
  | cons q rest ih =>
    by_cases h2 : q.1 = k
    · simp only [mapSet, if_pos h2] at h
      rcases List.mem_cons.mp h with h1 | h1
      · right; exact h1
      · left; simp [h1]
    · simp only [mapSet, if_neg h2] at h
      rcases List.mem_cons.mp h with h1 | h1
      · left; simp [h1]
      · rcases ih h1 with h3 | h3
        · left; simp [h3]
        · right; exact h3

theorem mem_mapUpd {κ α : Type} [DecidableEq κ] {f : α → α} {m : List (κ × α)} {k : κ}
    {p : κ × α} (h : p ∈ mapUpd f m k) : p ∈ m ∨ ∃ w, (k, w) ∈ m ∧ p = (k, f w) := by
  induction m with
  | nil => simp [mapUpd] at h
  | cons q rest ih =>
    obtain ⟨a, b⟩ := q
    by_cases h2 : a = k
    · simp only [mapUpd, if_pos h2] at h
      rcases List.mem_cons.mp h with h1 | h1
      · right
        exact ⟨b, by simp [h2], by simp [h1, h2]⟩
      · left; simp [h1]
    · simp only [mapUpd, if_neg h2] at h
      rcases List.mem_cons.mp h with h1 | h1
      · left; simp [h1]
      · rcases ih h1 with h3 | ⟨w, hw, he⟩
        · left; simp [h3]
        · right; exact ⟨w, by simp [hw], he⟩


/-! ### String order and sorting lemmas -/

theorem charListLe_total (as bs : List Char) :
    charListLe as bs = true ∨ charListLe bs as = true := by
  induction as generalizing bs with
  | nil => left; simp [charListLe]
  | cons a as ih =>
    cases bs with
    | nil => right; simp [charListLe]
    | cons b bs =>
      by_cases h1 : a.toNat < b.toNat
      · left
        simp [charListLe, h1]
      · by_cases h2 : b.toNat < a.toNat
        · right
          simp [charListLe, h2]
        · rcases ih bs with h | h
          · left
            simp [charListLe, h1, h2, h]
          · right
            simp [charListLe, h1, h2, h]

theorem charListLe_trans {as bs cs : List Char} (h1 : charListLe as bs = true)
    (h2 : charListLe bs cs = true) : charListLe as cs = true := by
  induction as generalizing bs cs with
  | nil => simp [charListLe]
  | cons a as ih =>
    cases bs with
    | nil => simp [charListLe] at h1
    | cons b bs =>
      cases cs with
      | nil => simp [charListLe] at h2
      | cons c cs =>
        simp only [charListLe] at h1 h2 ⊢
        by_cases hab : a.toNat < b.toNat
        · by_cases hbc : b.toNat < c.toNat
          · have : a.toNat < c.toNat := Nat.lt_trans hab hbc
            simp [this]
          · by_cases hcb : c.toNat < b.toNat
            · simp [hbc, hcb] at h2
            · have hbec : b.toNat = c.toNat := Nat.le_antisymm (Nat.le_of_not_lt hcb) (Nat.le_of_not_lt hbc)
              have : a.toNat < c.toNat := hbec ▸ hab
              simp [this]
        · by_cases hba : b.toNat < a.toNat
          · simp [hab, hba] at h1
          · have haeb : a.toNat = b.toNat := Nat.le_antisymm (Nat.le_of_not_lt hba) (Nat.le_of_not_lt hab)
            simp [hab, hba] at h1
            by_cases hbc : b.toNat < c.toNat
            · have : a.toNat < c.toNat := haeb ▸ hbc
              simp [this]
            · by_cases hcb : c.toNat < b.toNat
              · simp [hbc, hcb] at h2
              · have hac : ¬ a.toNat < c.toNat := by omega
                have hca : ¬ c.toNat < a.toNat := by omega
                simp [hbc, hcb] at h2
                simp [hac, hca, ih h1 h2]

theorem strLe_total (a b : String) : strLe a b = true ∨ strLe b a = true :=
  charListLe_total a.data b.data

theorem strLe_trans {a b c : String} (h1 : strLe a b = true) (h2 : strLe b c = true) :
    strLe a c = true :=
  charListLe_trans h1 h2

theorem perm_insertByKey {α : Type} (key : α → String) (a : α) (l : List α) :
    List.Perm (insertByKey key a l) (a :: l) := by
  induction l with
  | nil => simp [insertByKey]
  | cons x xs ih =>
    by_cases h : strLe (key a) (key x) = true
    · simp [insertByKey, h]
    · simp only [insertByKey, if_neg h]
      exact List.Perm.trans (List.Perm.cons x ih) (List.Perm.swap a x xs)

theorem mem_insertByKey {α : Type} (key : α → String) {a b : α} {l : List α} :
    b ∈ insertByKey key a l ↔ b = a ∨ b ∈ l := by
  rw [(perm_insertByKey key a l).mem_iff]
  simp

theorem perm_sortByKey {α : Type} (key : α → String) (l : List α) :
    List.Perm (sortByKey key l) l := by
  induction l with
  | nil => simp [sortByKey]
  | cons x xs ih =>
    exact List.Perm.trans (perm_insertByKey key x (sortByKey key xs)) (List.Perm.cons x ih)

theorem mem_sortByKey {α : Type} (key : α → String) {b : α} {l : List α} :
    b ∈ sortByKey key l ↔ b ∈ l :=
  (perm_sortByKey key l).mem_iff

theorem pairwise_insertByKey {α : Type} (key : α → String) (a : α) {l : List α}
    (h : List.Pairwise (fun x y => strLe (key x) (key y) = true) l) :
    List.Pairwise (fun x y => strLe (key x) (key y) = true) (insertByKey key a l) := by
  induction l with
  | nil => simp [insertByKey]
  | cons x xs ih =>
    rcases List.pairwise_cons.mp h with ⟨hx, hxs⟩
    by_cases h2 : strLe (key a) (key x) = true
    · simp only [insertByKey, if_pos h2]
      refine List.pairwise_cons.mpr ⟨?_, h⟩
      intro b hb
      rcases List.mem_cons.mp hb with h3 | h3
      · rw [h3]; exact h2
      · exact strLe_trans h2 (hx b h3)
    · simp only [insertByKey, if_neg h2]
      refine List.pairwise_cons.mpr ⟨?_, ih hxs⟩
      intro b hb
      rcases (mem_insertByKey key).mp hb with h3 | h3
      · rw [h3]
        rcases strLe_total (key a) (key x) with h4 | h4
        · exact absurd h4 h2
        · exact h4
      · exact hx b h3

theorem sorted_sortByKey {α : Type} (key : α → String) (l : List α) :
    List.Pairwise (fun x y => strLe (key x) (key y) = true) (sortByKey key l) := by
  induction l with
  | nil => simp [sortByKey]
  | cons x xs ih => exact pairwise_insertByKey key x ih


/-! ### Flattening, date collection and initialisation lemmas -/

theorem foldl_catLists {α β : Type} (f : β → α → β) (L : List (List α)) (b : β) :
    (catLists L).foldl f b = L.foldl (fun acc s => s.foldl f acc) b := by
  induction L generalizing b with
  | nil => simp [catLists]
  | cons l ls ih => simp [catLists, List.foldl_append, ih]

theorem mem_catLists {α : Type} {a : α} {L : List (List α)} :
    a ∈ catLists L ↔ ∃ s ∈ L, a ∈ s := by
  induction L with
  | nil => simp [catLists]
  | cons l ls ih => simp [catLists, ih]

theorem mem_addDates (dps : List DataPoint) (acc : List String) (d : String) :
    (d ∈ dps.foldl (fun a dp => if dp.date ∈ a then a else a ++ [dp.date]) acc) ↔
      d ∈ acc ∨ d ∈ dps.map (fun dp => dp.date) := by
  induction dps generalizing acc with
  | nil => simp
  | cons dp dps ih =>
    simp only [List.foldl_cons, ih, List.map_cons, List.mem_cons]
    by_cases h : dp.date ∈ acc
    · rw [if_pos h]
      constructor
      · rintro (h1 | h1)
        · exact Or.inl h1
        · exact Or.inr (Or.inr h1)
      · rintro (h1 | h1 | h1)
        · exact Or.inl h1
        · exact Or.inl (h1 ▸ h)
        · exact Or.inr h1
    · rw [if_neg h]
      simp only [List.mem_append, List.mem_singleton]
      tauto

theorem nodup_addDates (dps : List DataPoint) (acc : List String) (h : acc.Nodup) :
    (dps.foldl (fun a dp => if dp.date ∈ a then a else a ++ [dp.date]) acc).Nodup := by
  induction dps generalizing acc with
  | nil => exact h
  | cons dp dps ih =>
    simp only [List.foldl_cons]
    by_cases h2 : dp.date ∈ acc
    · rw [if_pos h2]
      exact ih acc h
    · rw [if_neg h2]
      refine ih _ ?_
      simp [List.nodup_append, h, h2]

theorem allDatesOf_eq (L : List (List DataPoint)) :
    allDatesOf L =
      (catLists L).foldl (fun a dp => if dp.date ∈ a then a else a ++ [dp.date]) [] :=
  (foldl_catLists _ L []).symm

theorem mem_allDatesOf {L : List (List DataPoint)} {d : String} :
    d ∈ allDatesOf L ↔ ∃ s ∈ L, ∃ dp ∈ s, dp.date = d := by
  rw [allDatesOf_eq, mem_addDates]
  simp [mem_catLists]
  constructor
  · rintro ⟨dp, ⟨s, hs, hdp⟩, he⟩
    exact ⟨s, hs, dp, hdp, he⟩
  · rintro ⟨s, hs, dp, hdp, he⟩
    exact ⟨dp, ⟨s, hs, hdp⟩, he⟩

theorem nodup_allDatesOf (L : List (List DataPoint)) : (allDatesOf L).Nodup := by
  rw [allDatesOf_eq]
  exact nodup_addDates _ [] List.nodup_nil

theorem alook_initCells_fold (items : List String) (acc : List (String × Option ℚ))
    (g : String) :
    alook (items.foldl (fun cs g2 => mapSet cs g2 none) acc) g =
      if g ∈ items then some none else alook acc g := by
  induction items generalizing acc with
  | nil => simp
  | cons i items ih =>
    simp only [List.foldl_cons, ih, List.mem_cons]
    by_cases h : g ∈ items
    · simp [h]
    · by_cases h2 : g = i
      · simp [h, h2, alook_mapSet_self]
      · simp [h, h2, alook_mapSet_ne _ _ h2]

theorem alook_initCells (items : List String) (g : String) :
    alook (initCells items) g = if g ∈ items then some none else none := by
  rw [initCells, alook_initCells_fold]
  simp [alook]

theorem initRows_fold_eq (items : List String) (dates : List String)
    (acc : List (String × DataPoint)) (hnd : dates.Nodup)
    (habs : ∀ d ∈ dates, alook acc d = none) :
    dates.foldl (fun m d => mapSet m d ⟨d, initCells items⟩) acc =
      acc ++ dates.map (fun d => (d, ⟨d, initCells items⟩)) := by
  induction dates generalizing acc with
  | nil => simp
  | cons d dates ih =>
    simp only [List.foldl_cons, List.map_cons]
    rw [mapSet_of_absent _ (habs d (List.mem_cons_self d dates))]
    rw [List.nodup_cons] at hnd
    rw [ih _ hnd.2 ?_]
    · rw [List.append_assoc]
      rfl
    · intro d2 hd2
      rw [alook_append]
      rw [habs d2 (List.mem_cons_of_mem d hd2)]
      have hne : d ≠ d2 := fun he => hnd.1 (he ▸ hd2)
      simp [alook, hne]

theorem initRows_eq (items : List String) (dates : List String) (hnd : dates.Nodup) :
    initRows items dates = dates.map (fun d => (d, ⟨d, initCells items⟩)) := by
  rw [initRows, initRows_fold_eq items dates [] hnd (by simp [alook])]
  exact List.nil_append _

theorem keys_initRows (items : List String) (dates : List String) (hnd : dates.Nodup) :
    (initRows items dates).map Prod.fst = dates := by
  rw [initRows_eq items dates hnd, List.map_map]
  exact List.map_id dates


/-! ### Fill-in loop lemmas -/

theorem applyWrites_append (m : List (String × DataPoint))
    (ws ws2 : List (String × String × Option ℚ)) :
    applyWrites m (ws ++ ws2) = applyWrites (applyWrites m ws) ws2 := by
  simp [applyWrites, List.foldl_append]

theorem fillAgencyPoint_eq (m : List (String × DataPoint)) (s : List DataPoint) :
    s.foldl (fun m2 dp => dp.cells.foldl (fun m3 kv => updCell m3 dp.date kv.1 kv.2) m2) m =
      applyWrites m (catLists (s.map (fun dp =>
        dp.cells.map (fun kv => (dp.date, kv.1, kv.2))))) := by
  induction s generalizing m with
  | nil => rfl
  | cons dp s ih =>
    simp only [List.foldl_cons, List.map_cons, catLists]
    rw [applyWrites_append, ih]
    congr 1
    simp [applyWrites, List.foldl_map]

theorem fillAgency_eq (m : List (String × DataPoint)) (L : List (List DataPoint)) :
    fillAgency m L = applyWrites m (writesA L) := by
  induction L generalizing m with
  | nil => rfl
  | cons s ls ih =>
    simp only [fillAgency, List.foldl_cons, writesA, List.map_cons, catLists]
    rw [applyWrites_append]
    rw [← fillAgencyPoint_eq m s]
    exact ih _

theorem fillTitle_eq (m : List (String × DataPoint))
    (seriesWithTitles : List (List DataPoint × String)) :
    fillTitle m seriesWithTitles = applyWrites m (writesT seriesWithTitles) := by
  induction seriesWithTitles generalizing m with
  | nil => rfl
  | cons p ps ih =>
    simp only [fillTitle, List.foldl_cons, writesT, List.map_cons, catLists]
    rw [applyWrites_append]
    have hp : p.1.foldl (fun m2 dp =>
        updCell m2 dp.date p.2 (jsOrNull (findNumeric dp.cells))) m =
        applyWrites m (p.1.map (fun dp =>
          (dp.date, p.2, jsOrNull (findNumeric dp.cells)))) := by
      simp [applyWrites, List.foldl_map]
    rw [← hp]
    exact ih _

theorem keys_applyWrites (m : List (String × DataPoint))
    (ws : List (String × String × Option ℚ)) :
    (applyWrites m ws).map Prod.fst = m.map Prod.fst := by
  induction ws generalizing m with
  | nil => rfl
  | cons w ws ih =>
    simp only [applyWrites, List.foldl_cons]
    rw [show (ws.foldl (fun m1 w2 => updCell m1 w2.1 w2.2.1 w2.2.2)
      (updCell m w.1 w.2.1 w.2.2)) = applyWrites (updCell m w.1 w.2.1 w.2.2) ws from rfl]
    rw [ih]
    exact keys_mapUpd _ m w.1

theorem updCell_mem {m : List (String × DataPoint)} {d k : String} {v : Option ℚ}
    {p : String × DataPoint} (h : p ∈ updCell m d k v) :
    p ∈ m ∨ ∃ q ∈ m, p = (q.1, setDPcell q.2 k v) := by
  rcases mem_mapUpd h with h1 | ⟨w, hw, he⟩
  · exact Or.inl h1
  · exact Or.inr ⟨(d, w), hw, by simp [he]⟩

theorem applyWrites_all (P : String × DataPoint → Prop)
    (hstep : ∀ (k : String) (v : Option ℚ) (q : String × DataPoint),
      P q → P (q.1, setDPcell q.2 k v)) :
    ∀ (ws : List (String × String × Option ℚ)) (m : List (String × DataPoint)),
      (∀ p ∈ m, P p) → ∀ p ∈ applyWrites m ws, P p := by
  intro ws
  induction ws with
  | nil => intro m h p hp; exact h p hp
  | cons w ws ih =>
    intro m h p hp
    refine ih (updCell m w.1 w.2.1 w.2.2) ?_ p hp
    intro q hq
    rcases updCell_mem hq with h1 | ⟨r, hr, he⟩
    · exact h q h1
    · rw [he]
      exact hstep _ _ r (h r hr)

theorem applyWrites_cellVal (g d : String) (v : Option ℚ) :
    ∀ (ws : List (String × String × Option ℚ)) (m : List (String × DataPoint)),
    (∀ w ∈ ws, w.1 = d → w.2.1 = g → w.2.2 = v) →
    (alook m d).isSome →
    ((∃ w ∈ ws, w.1 = d ∧ w.2.1 = g) ∨
      (∃ dp, alook m d = some dp ∧ alook dp.cells g = some v)) →
    ∃ dp, alook (applyWrites m ws) d = some dp ∧ alook dp.cells g = some v := by
  intro ws
  induction ws with
  | nil =>
    intro m _ _ h3
    rcases h3 with ⟨w, hw, _⟩ | ⟨dp, hdp, hcell⟩
    · simp at hw
    · exact ⟨dp, hdp, hcell⟩
  | cons w ws ih =>
    intro m h1 h2 h3
    have hks : (alook (updCell m w.1 w.2.1 w.2.2) d).isSome := by
      rw [alook_isSome_iff, updCell, keys_mapUpd]
      rw [alook_isSome_iff] at h2
      exact h2
    have h1r : ∀ w2 ∈ ws, w2.1 = d → w2.2.1 = g → w2.2.2 = v :=
      fun w2 hw2 => h1 w2 (List.mem_cons_of_mem w hw2)
    refine ih (updCell m w.1 w.2.1 w.2.2) h1r hks ?_
    rcases h3 with ⟨w2, hw2, hw2d, hw2g⟩ | ⟨dp, hdp, hcell⟩
    · rcases List.mem_cons.mp hw2 with he | hmem
      · right
        have hwd : w.1 = d := he ▸ hw2d
        have hwg : w.2.1 = g := he ▸ hw2g
        have hwv : w.2.2 = v := h1 w (List.mem_cons_self w ws) hwd hwg
        rcases Option.isSome_iff_exists.mp h2 with ⟨dp0, hdp0⟩
        refine ⟨setDPcell dp0 g v, ?_, ?_⟩
        · rw [updCell, hwd, alook_mapUpd_self, hdp0, hwg, hwv]
          rfl
        · rw [setDPcell]
          exact alook_mapSet_self _ _ _
      · left
        exact ⟨w2, hmem, hw2d, hw2g⟩
    · right
      by_cases hd : w.1 = d
      · refine ⟨setDPcell dp w.2.1 w.2.2, ?_, ?_⟩
        · rw [updCell, hd, alook_mapUpd_self, hdp]
          rfl
        · by_cases hg : w.2.1 = g
          · have hwv : w.2.2 = v := h1 w (List.mem_cons_self w ws) hd hg
            rw [setDPcell, hg, hwv]
            exact alook_mapSet_self _ _ _
          · rw [setDPcell]
            rw [alook_mapSet_ne _ _ (fun he => hg he.symm)]
            exact hcell
      · refine ⟨dp, ?_, hcell⟩
        rw [updCell, alook_mapUpd_ne _ _ (fun he => hd he.symm)]
        exact hdp

theorem applyWrites_pres (g : String) :
    ∀ (ws : List (String × String × Option ℚ)) (m : List (String × DataPoint)),
    (∀ w ∈ ws, w.2.1 ≠ g) →
    (∀ p ∈ m, alook p.2.cells g = some none) →
    ∀ p ∈ applyWrites m ws, alook p.2.cells g = some none := by
  intro ws
  induction ws with
  | nil => intro m _ h p hp; exact h p hp
  | cons w ws ih =>
    intro m h1 h2 p hp
    refine ih (updCell m w.1 w.2.1 w.2.2)
      (fun w2 hw2 => h1 w2 (List.mem_cons_of_mem w hw2)) ?_ p hp
    intro q hq
    rcases updCell_mem hq with hq1 | ⟨r, hr, he⟩
    · exact h2 q hq1
    · rw [he]
      have hne : w.2.1 ≠ g := h1 w (List.mem_cons_self w ws)
      show alook (setDPcell r.2 w.2.1 w.2.2).cells g = some none
      rw [setDPcell]
      show alook (mapSet r.2.cells w.2.1 w.2.2) g = some none
      rw [alook_mapSet_ne _ _ (fun he2 => hne he2.symm)]
      exact h2 r hr


/-! ### Tally and combination lemmas -/

theorem bump_alook_self (m : List (String × (ℚ × Nat))) (d : String) (v : ℚ) :
    alook (bump m d v) d =
      some (((alook m d).getD (0, 0)).1 + v, ((alook m d).getD (0, 0)).2 + 1) := by
  rcases h : alook m d with _ | tc
  · simp [bump, h, alook_mapUpd_self, alook_mapSet_self]
  · simp [bump, h, alook_mapUpd_self]

theorem bump_alook_ne (m : List (String × (ℚ × Nat))) {d d1 : String} (v : ℚ)
    (h : d1 ≠ d) : alook (bump m d v) d1 = alook m d1 := by
  rw [bump]
  by_cases hs : (alook m d).isSome
  · simp only [if_pos hs]
    exact alook_mapUpd_ne _ _ h
  · simp only [if_neg hs]
    rw [alook_mapUpd_ne _ _ h, alook_mapSet_ne _ _ h]

theorem keys_nodup_bump (m : List (String × (ℚ × Nat))) (d : String) (v : ℚ)
    (h : (m.map Prod.fst).Nodup) : ((bump m d v).map Prod.fst).Nodup := by
  rw [bump]
  by_cases hs : (alook m d).isSome
  · simp only [if_pos hs]
    rw [keys_mapUpd]
    exact h
  · simp only [if_neg hs]
    rw [keys_mapUpd]
    exact keys_nodup_mapSet d (0, 0) h

theorem tally_fold_alook (d : String) :
    ∀ (dps : List DataPoint) (m0 : List (String × (ℚ × Nat))),
    alook (dps.foldl (fun m dp => bump m dp.date (valueOfPoint dp)) m0) d =
      if vsAt dps d = [] then alook m0 d
      else some (((alook m0 d).getD (0, 0)).1 + (vsAt dps d).sum,
                 ((alook m0 d).getD (0, 0)).2 + (vsAt dps d).length) := by
  intro dps
  induction dps with
  | nil =>
    intro m0
    simp [vsAt]
  | cons dp dps ih =>
    intro m0
    by_cases hd : dp.date = d
    · have hvs : vsAt (dp :: dps) d = valueOfPoint dp :: vsAt dps d := by
        simp [vsAt, hd]
      simp only [List.foldl_cons, ih, hvs]
      rw [hd, bump_alook_self]
      rcases h2 : vsAt dps d with _ | ⟨w, ws⟩
      · rw [if_pos rfl]
        have hne : ¬ (valueOfPoint dp :: ([] : List ℚ)) = [] := by simp
        rw [if_neg hne]
        simp only [Option.getD_some, List.sum_cons, List.sum_nil, List.length_cons,
          List.length_nil, Option.some_inj, Prod.mk.injEq]
        refine ⟨by ring, by simp [Nat.add_comm, Nat.add_assoc, Nat.add_left_comm]⟩
      · have hne2 : ¬ (w :: ws) = ([] : List ℚ) := by simp
        rw [if_neg hne2]
        have hne3 : ¬ (valueOfPoint dp :: w :: ws) = ([] : List ℚ) := by simp
        rw [if_neg hne3]
        simp only [Option.getD_some, List.sum_cons, List.length_cons, Option.some_inj,
          Prod.mk.injEq]
        refine ⟨by ring, by omega⟩
    · have hvs : vsAt (dp :: dps) d = vsAt dps d := by
        simp [vsAt, hd]
      simp only [List.foldl_cons, ih, hvs]
      rw [bump_alook_ne _ _ (fun he => hd he.symm)]

theorem keys_nodup_tally_fold :
    ∀ (dps : List DataPoint) (m0 : List (String × (ℚ × Nat))),
    (m0.map Prod.fst).Nodup →
    (((dps.foldl (fun m dp => bump m dp.date (valueOfPoint dp)) m0)).map Prod.fst).Nodup := by
  intro dps
  induction dps with
  | nil => intro m0 h; exact h
  | cons dp dps ih =>
    intro m0 h
    exact ih _ (keys_nodup_bump m0 dp.date (valueOfPoint dp) h)

theorem tallyPairs_eq (P : List (List DataPoint)) :
    tallyPairs P = (catLists P).foldl (fun m dp => bump m dp.date (valueOfPoint dp)) [] :=
  (foldl_catLists _ P []).symm

theorem perRefValuesAt_eq (P : List (List DataPoint)) (d : String) :
    perRefValuesAt P d = vsAt (catLists P) d := rfl

theorem alook_tallyPairs (P : List (List DataPoint)) (d : String) :
    alook (tallyPairs P) d =
      if perRefValuesAt P d = [] then none
      else some ((perRefValuesAt P d).sum, (perRefValuesAt P d).length) := by
  rw [tallyPairs_eq, tally_fold_alook, perRefValuesAt_eq]
  by_cases h : vsAt (catLists P) d = []
  · rw [if_pos h, if_pos h]
    simp [alook]
  · rw [if_neg h, if_neg h]
    simp [alook]

theorem keys_nodup_tallyPairs (P : List (List DataPoint)) :
    ((tallyPairs P).map Prod.fst).Nodup := by
  rw [tallyPairs_eq]
  exact keys_nodup_tally_fold _ [] (by simp)

theorem combineAgencyPairs_eq (name metric : String) (P : List (List DataPoint)) :
    combineAgencyPairs name metric P =
      (tallyPairs P).map (fun e => ⟨e.1, [(name, aggrOf metric e.2)]⟩) := rfl

theorem combine_char (name metric : String) (P : List (List DataPoint)) (d : String)
    (hne : perRefValuesAt P d ≠ []) :
    (∃ dp ∈ combineAgencyPairs name metric P, dp.date = d ∧
        alook dp.cells name =
          some (aggrOf metric ((perRefValuesAt P d).sum, (perRefValuesAt P d).length))) ∧
    (∀ dp ∈ combineAgencyPairs name metric P, dp.date = d →
        alook dp.cells name =
          some (aggrOf metric ((perRefValuesAt P d).sum, (perRefValuesAt P d).length))) := by
  have hT : alook (tallyPairs P) d =
      some ((perRefValuesAt P d).sum, (perRefValuesAt P d).length) := by
    rw [alook_tallyPairs, if_neg hne]
  constructor
  · refine ⟨⟨d, [(name, aggrOf metric ((perRefValuesAt P d).sum, (perRefValuesAt P d).length))]⟩,
      ?_, rfl, by simp [alook]⟩
    rw [combineAgencyPairs_eq]
    exact List.mem_map_of_mem _ (alook_mem hT)
  · intro dp hdp hdd
    rw [combineAgencyPairs_eq] at hdp
    rcases List.mem_map.mp hdp with ⟨e, heT, he⟩
    have hed : e.1 = d := by
      rw [← he] at hdd
      exact hdd
    have hlok : alook (tallyPairs P) e.1 = some e.2 :=
      alook_of_mem_nodup (keys_nodup_tallyPairs P) (by rw [← Prod.mk.eta (p := e)] at heT; exact heT)
    rw [hed, hT] at hlok
    rw [← he]
    simp [alook]
    rw [← Option.some_inj.mp hlok]


/-! ### Merged table lemmas -/

theorem handler_agency_eq (env : RpcEnv) (ags : List Agency) (items : List String)
    (metric : String) :
    supabaseHandler env ags "agency" items metric =
      mergedRows items (agencyResultsOf env ags items metric)
        (writesA (agencyResultsOf env ags items metric)) := by
  simp only [supabaseHandler, reduceIte, mergedRows, fillAgency_eq]

theorem handler_title_eq (env : RpcEnv) (ags : List Agency) (items : List String)
    (metric : String) :
    supabaseHandler env ags "cfr-title" items metric =
      mergedRows items (titleResultsOf env items metric)
        (writesT ((titleResultsOf env items metric).zip items)) := by
  simp only [supabaseHandler, reduceIte, mergedRows, fillTitle_eq]
  rw [if_neg (by decide)]

theorem merge_inv (items : List String) (L : List (List DataPoint))
    (ws : List (String × String × Option ℚ)) :
    ∀ p ∈ applyWrites (initRows items (allDatesOf L)) ws,
      p.2.date = p.1 ∧ ∀ g ∈ items, (alook p.2.cells g).isSome := by
  refine applyWrites_all _ ?_ ws _ ?_
  · intro k v q hq
    refine ⟨hq.1, fun g hg => ?_⟩
    show (alook (mapSet q.2.cells k v) g).isSome
    by_cases h : g = k
    · rw [h, alook_mapSet_self]
      rfl
    · rw [alook_mapSet_ne _ _ h]
      exact hq.2 g hg
  · intro p hp
    rw [initRows_eq _ _ (nodup_allDatesOf L)] at hp
    rcases List.mem_map.mp hp with ⟨d, _, he⟩
    rw [← he]
    refine ⟨rfl, fun g hg => ?_⟩
    show (alook (initCells items) g).isSome
    rw [alook_initCells, if_pos hg]
    rfl

theorem merge_keys (items : List String) (L : List (List DataPoint))
    (ws : List (String × String × Option ℚ)) :
    (applyWrites (initRows items (allDatesOf L)) ws).map Prod.fst = allDatesOf L := by
  rw [keys_applyWrites, keys_initRows _ _ (nodup_allDatesOf L)]

theorem mergedRows_dates (items : List String) (L : List (List DataPoint))
    (ws : List (String × String × Option ℚ)) :
    ((mergedRows items L ws).map (fun dp => dp.date)).Nodup ∧
    (∀ d, d ∈ (mergedRows items L ws).map (fun dp => dp.date) ↔ d ∈ allDatesOf L) := by
  have hperm := (perm_sortByKey (fun dp => dp.date)
    ((applyWrites (initRows items (allDatesOf L)) ws).map Prod.snd)).map (fun dp => dp.date)
  have hmm : ((applyWrites (initRows items (allDatesOf L)) ws).map Prod.snd).map
      (fun dp => dp.date) = allDatesOf L := by
    rw [List.map_map]
    have h1 : List.map ((fun dp => dp.date) ∘ Prod.snd)
        (applyWrites (initRows items (allDatesOf L)) ws) =
        List.map Prod.fst (applyWrites (initRows items (allDatesOf L)) ws) :=
      List.map_congr_left (fun p hp => (merge_inv items L ws p hp).1)
    rw [h1, merge_keys]
  rw [hmm] at hperm
  constructor
  · exact hperm.nodup_iff.mpr (nodup_allDatesOf L)
  · intro d
    exact hperm.mem_iff

theorem mergedRows_date_iff (items : List String) (L : List (List DataPoint))
    (ws : List (String × String × Option ℚ)) (d : String) :
    (∃ row ∈ mergedRows items L ws, row.date = d) ↔ d ∈ allDatesOf L := by
  rw [← (mergedRows_dates items L ws).2 d]
  simp [List.mem_map]

theorem mergedRows_keys_present (items : List String) (L : List (List DataPoint))
    (ws : List (String × String × Option ℚ)) :
    ∀ row ∈ mergedRows items L ws, ∀ g ∈ items, (alook row.cells g).isSome := by
  intro row hrow g hg
  rw [mergedRows, mem_sortByKey] at hrow
  rcases List.mem_map.mp hrow with ⟨p, hp, he⟩
  rw [← he]
  exact (merge_inv items L ws p hp).2 g hg

theorem mergedRows_sorted (items : List String) (L : List (List DataPoint))
    (ws : List (String × String × Option ℚ)) :
    List.Pairwise (fun x y => strLe x.date y.date = true) (mergedRows items L ws) :=
  sorted_sortByKey _ _

theorem mergedRows_unique_row (items : List String) (L : List (List DataPoint))
    (ws : List (String × String × Option ℚ)) {d : String} {row : DataPoint}
    (hrow : row ∈ mergedRows items L ws) (hd : row.date = d) :
    alook (applyWrites (initRows items (allDatesOf L)) ws) d = some row := by
  rw [mergedRows, mem_sortByKey] at hrow
  rcases List.mem_map.mp hrow with ⟨p, hp, he⟩
  have hinv := (merge_inv items L ws p hp).1
  have hpd : p.1 = d := by rw [← hinv, he, hd]
  have hnd : ((applyWrites (initRows items (allDatesOf L)) ws).map Prod.fst).Nodup := by
    rw [merge_keys]
    exact nodup_allDatesOf L
  have : alook (applyWrites (initRows items (allDatesOf L)) ws) p.1 = some p.2 :=
    alook_of_mem_nodup hnd (by rw [← Prod.mk.eta (p := p)] at hp; exact hp)
  rw [hpd] at this
  rw [this, he]

theorem mergedRows_row_of_alook (items : List String) (L : List (List DataPoint))
    (ws : List (String × String × Option ℚ)) {d : String} {row : DataPoint}
    (h : alook (applyWrites (initRows items (allDatesOf L)) ws) d = some row) :
    row ∈ mergedRows items L ws ∧ row.date = d := by
  have hmem := alook_mem h
  have hinv := merge_inv items L ws (d, row) hmem
  constructor
  · rw [mergedRows, mem_sortByKey]
    exact List.mem_map.mpr ⟨(d, row), hmem, rfl⟩
  · exact hinv.1

theorem mem_writesA {w : String × String × Option ℚ} {L : List (List DataPoint)} :
    w ∈ writesA L ↔
      ∃ s ∈ L, ∃ dp ∈ s, ∃ kv ∈ dp.cells, w = (dp.date, kv.1, kv.2) := by
  rw [writesA, mem_catLists]
  constructor
  · rintro ⟨l, hl, hw⟩
    rcases List.mem_map.mp hl with ⟨s, hs, he⟩
    rw [← he, mem_catLists] at hw
    rcases hw with ⟨l2, hl2, hw2⟩
    rcases List.mem_map.mp hl2 with ⟨dp, hdp, he2⟩
    rw [← he2] at hw2
    rcases List.mem_map.mp hw2 with ⟨kv, hkv, he3⟩
    exact ⟨s, hs, dp, hdp, kv, hkv, he3.symm⟩
  · rintro ⟨s, hs, dp, hdp, kv, hkv, he⟩
    refine ⟨catLists (s.map (fun dp => dp.cells.map (fun kv => (dp.date, kv.1, kv.2)))),
      List.mem_map_of_mem _ hs, ?_⟩
    rw [mem_catLists]
    refine ⟨dp.cells.map (fun kv => (dp.date, kv.1, kv.2)), List.mem_map_of_mem _ hdp, ?_⟩
    rw [he]
    exact List.mem_map_of_mem _ hkv

theorem mem_writesT {w : String × String × Option ℚ}
    {P : List (List DataPoint × String)} :
    w ∈ writesT P ↔
      ∃ p ∈ P, ∃ dp ∈ p.1, w = (dp.date, p.2, jsOrNull (findNumeric dp.cells)) := by
  rw [writesT, mem_catLists]
  constructor
  · rintro ⟨l, hl, hw⟩
    rcases List.mem_map.mp hl with ⟨p, hp, he⟩
    rw [← he] at hw
    rcases List.mem_map.mp hw with ⟨dp, hdp, he2⟩
    exact ⟨p, hp, dp, hdp, he2.symm⟩
  · rintro ⟨p, hp, dp, hdp, he⟩
    refine ⟨p.1.map (fun dp => (dp.date, p.2, jsOrNull (findNumeric dp.cells))),
      List.mem_map_of_mem _ hp, ?_⟩
    rw [he]
    exact List.mem_map_of_mem _ hdp

theorem mem_zip_map {items : List String} {f : String → List DataPoint}
    {p : List DataPoint × String} (h : p ∈ (items.map f).zip items) :
    p.1 = f p.2 ∧ p.2 ∈ items := by
  induction items with
  | nil => simp at h
  | cons i rest ih =>
    simp only [List.map_cons, List.zip_cons_cons] at h
    rcases List.mem_cons.mp h with he | hmem
    · rw [he]
      exact ⟨rfl, List.mem_cons_self i rest⟩
    · rcases ih hmem with ⟨h1, h2⟩
      exact ⟨h1, List.mem_cons_of_mem i h2⟩

theorem mem_combine_shape {dp : DataPoint} {name metric : String}
    {P : List (List DataPoint)} (h : dp ∈ combineAgencyPairs name metric P) :
    ∃ e ∈ tallyPairs P, dp = ⟨e.1, [(name, aggrOf metric e.2)]⟩ := by
  rw [combineAgencyPairs_eq] at h
  rcases List.mem_map.mp h with ⟨e, he, heq⟩
  exact ⟨e, he, heq.symm⟩

theorem agencySeries_eq_combine (env : RpcEnv) (ags : List Agency) (metric name : String) :
    agencySeries env ags metric name =
      combineAgencyPairs name metric (pairResultsOf env ags metric name) := by
  rw [agencySeries, pairResultsOf]
  rcases h : ags.find? (fun a => a.name == name) with _ | a
  · simp only [h]
    rfl
  · simp only [h]
    by_cases he : a.cfr_references.isEmpty
    · have hnil : a.cfr_references = [] := by
        cases hc : a.cfr_references
        · rfl
        · rw [hc] at he
          simp [List.isEmpty] at he
      simp only [if_pos he, hnil]
      rfl
    · simp only [if_neg he]

theorem agencySeries_empty (env : RpcEnv) (ags : List Agency) (metric name : String)
    (h : ∀ a ∈ ags, a.name = name →
      a.cfr_references.filter (fun r => r.chapter.isSome) = []) :
    agencySeries env ags metric name = [] := by
  rw [agencySeries]
  rcases hf : ags.find? (fun a => a.name == name) with _ | a
  · simp only [hf]
  · simp only [hf]
    have hmem : a ∈ ags := List.mem_of_find?_eq_some hf
    have hpred := List.find?_some hf
    have hname : a.name = name := by simpa using hpred
    have hfa := h a hmem hname
    by_cases he : a.cfr_references.isEmpty
    · simp only [if_pos he]
    · simp only [if_neg he, hfa]
      rfl


/-! ### Failed read helper lemmas -/

theorem catLists_eq_nil_of_all_nil {α : Type} (P : List (List α))
    (h : ∀ s ∈ P, s = []) : catLists P = [] := by
  induction P with
  | nil => rfl
  | cons s ps ih =>
    rw [catLists, h s (List.mem_cons_self s ps),
      ih (fun s2 hs2 => h s2 (List.mem_cons_of_mem s hs2))]
    rfl

theorem combineAgencyPairs_nil_of_all_nil (name metric : String)
    (P : List (List DataPoint)) (h : ∀ s ∈ P, s = []) :
    combineAgencyPairs name metric P = [] := by
  have ht : tallyPairs P = [] := by
    rw [tallyPairs_eq, catLists_eq_nil_of_all_nil P h]
    rfl
  rw [combineAgencyPairs_eq, ht]
  rfl

theorem allnull_column_of_empty_series (env : RpcEnv) (ags : List Agency)
    (items : List String) (metric name : String) (hmem : name ∈ items)
    (h1 : agencySeries env ags metric name = []) :
    ∀ row ∈ supabaseHandler env ags "agency" items metric,
      alook row.cells name = some none := by
  intro row hrow
  rw [handler_agency_eq, mergedRows, mem_sortByKey] at hrow
  rcases List.mem_map.mp hrow with ⟨p, hp, he⟩
  rw [← he]
  refine applyWrites_pres name _ _ ?_ ?_ p hp
  · intro w hw
    rcases mem_writesA.mp hw with ⟨s, hs, dp, hdp, kv, hkv, hwe⟩
    rw [agencyResultsOf] at hs
    rcases List.mem_map.mp hs with ⟨g2, _, hs2⟩
    intro hcon
    rw [hwe] at hcon
    simp only at hcon
    have hdp0 : dp ∈ agencySeries env ags metric g2 := by
      rw [hs2]
      exact hdp
    rw [agencySeries_eq_combine] at hdp0
    rcases mem_combine_shape hdp0 with ⟨e, _, hdpe⟩
    rw [hdpe] at hkv
    have hkve : kv = (g2, aggrOf metric e.2) := by simpa using hkv
    rw [hkve] at hcon
    simp only at hcon
    rw [hcon] at hdp0
    rw [← agencySeries_eq_combine, h1] at hdp0
    simp at hdp0
  · intro p2 hp2
    rw [initRows_eq _ _ (nodup_allDatesOf _)] at hp2
    rcases List.mem_map.mp hp2 with ⟨d2, _, he2⟩
    rw [← he2]
    show alook (initCells items) name = some none
    rw [alook_initCells, if_pos hmem]

theorem getMetricTotalForPairs_errorsAsEmpty (env : RpcEnv) (ts cs : List String)
    (metric : String) :
    getMetricTotalForPairs (errorsAsEmpty env) ts cs metric =
      getMetricTotalForPairs env ts cs metric := by
  rcases h : env.pairsRpc ts cs metric with e | d
  · have hp : (errorsAsEmpty env).pairsRpc ts cs metric = .ok [] := by
      show (match env.pairsRpc ts cs metric with
        | .error _ => (.ok [] : Except String (List YearMetric))
        | .ok d => .ok d) = .ok []
      rw [h]
    rw [getMetricTotalForPairs, getMetricTotalForPairs, hp, h]
    rfl
  · have hp : (errorsAsEmpty env).pairsRpc ts cs metric = .ok d := by
      show (match env.pairsRpc ts cs metric with
        | .error _ => (.ok [] : Except String (List YearMetric))
        | .ok d => .ok d) = .ok d
      rw [h]
    rw [getMetricTotalForPairs, getMetricTotalForPairs, hp, h]

theorem getMetricTotalForTitle_errorsAsEmpty (env : RpcEnv) (t metric : String) :
    getMetricTotalForTitle (errorsAsEmpty env) t metric =
      getMetricTotalForTitle env t metric := by
  rcases h : env.titleRpc t metric with e | d
  · have hp : (errorsAsEmpty env).titleRpc t metric = .ok [] := by
      show (match env.titleRpc t metric with
        | .error _ => (.ok [] : Except String (List YearMetric))
        | .ok d => .ok d) = .ok []
      rw [h]
    rw [getMetricTotalForTitle, getMetricTotalForTitle, hp, h]
    rfl
  · have hp : (errorsAsEmpty env).titleRpc t metric = .ok d := by
      show (match env.titleRpc t metric with
        | .error _ => (.ok [] : Except String (List YearMetric))
        | .ok d => .ok d) = .ok d
      rw [h]
    rw [getMetricTotalForTitle, getMetricTotalForTitle, hp, h]

theorem agencySeries_errorsAsEmpty (env : RpcEnv) (ags : List Agency)
    (metric name : String) :
    agencySeries (errorsAsEmpty env) ags metric name = agencySeries env ags metric name := by
  rw [agencySeries, agencySeries]
  rcases hf : ags.find? (fun a => a.name == name) with _ | a
  · simp only [hf]
  · simp only [hf]
    by_cases he : a.cfr_references.isEmpty
    · simp only [if_pos he]
    · simp only [if_neg he]
      congr 1
      apply List.map_congr_left
      intro r _
      exact getMetricTotalForPairs_errorsAsEmpty env _ _ metric

/-! ### Metrics Store lemmas -/

theorem foldl_mapSet_alook_of_not_mem {κ α : Type} [DecidableEq κ]
    (recs : List (κ × α)) (s : List (κ × α)) (k : κ) (h : k ∉ recs.map Prod.fst) :
    alook (recs.foldl (fun s2 r => mapSet s2 r.1 r.2) s) k = alook s k := by
  induction recs generalizing s with
  | nil => rfl
  | cons r rest ih =>
    simp only [List.map_cons, List.mem_cons] at h
    push_neg at h
    simp only [List.foldl_cons]
    rw [ih _ h.2, alook_mapSet_ne _ _ h.1]

theorem foldl_mapSet_keys_nodup {κ α : Type} [DecidableEq κ]
    (recs : List (κ × α)) (s : List (κ × α)) (h : (s.map Prod.fst).Nodup) :
    (((recs.foldl (fun s2 r => mapSet s2 r.1 r.2) s)).map Prod.fst).Nodup := by
  induction recs generalizing s with
  | nil => exact h
  | cons r rest ih =>
    simp only [List.foldl_cons]
    exact ih _ (keys_nodup_mapSet r.1 r.2 h)

theorem foldl_mapSet_idem {κ α : Type} [DecidableEq κ] (recs : List (κ × α)) :
    (recs.map Prod.fst).Nodup → ∀ s : List (κ × α),
      recs.foldl (fun s2 r => mapSet s2 r.1 r.2)
        (recs.foldl (fun s2 r => mapSet s2 r.1 r.2) s) =
      recs.foldl (fun s2 r => mapSet s2 r.1 r.2) s := by
  induction recs with
  | nil => intro _ s; rfl
  | cons r rest ih =>
    intro hnd s
    rw [List.map_cons, List.nodup_cons] at hnd
    simp only [List.foldl_cons]
    have halook : alook (rest.foldl (fun s2 r2 => mapSet s2 r2.1 r2.2)
        (mapSet s r.1 r.2)) r.1 = some r.2 := by
      rw [foldl_mapSet_alook_of_not_mem rest _ r.1 hnd.1, alook_mapSet_self]
    rw [mapSet_self_of_alook halook]
    exact ih hnd.2 (mapSet s r.1 r.2)

/-! ### Claim theorems -/

/-- Claim C2 (code bug witness): under the cfr-title branch, a title whose
stored aggregate at a date is the number 0 is reported as null at that date,
because the falsy JavaScript fallback x-or-else-null turns 0 into null.
Evaluating the facade on a store holding the aggregate 0 for title 1 at
2020-02-13 produces a null cell, not a 0 cell. -/
theorem c2_zero_reported_as_null :
    supabaseHandler envZero [] "cfr-title" ["1"] "word_count" =
      [⟨"2020-02-13", [("1", none)]⟩] := by decide

/-- Claim C7: re-ingesting the same snapshot twice leaves the Metrics Store
with exactly one record per natural key and the same rows and values as
ingesting it once: ingestion is an upsert by natural key, never an additive
insert.  (Modelled from the spec, since the ingestion scripts are not among
the available sources.) -/
theorem c7_upsert_idempotent (store records : List (RecordKey × MetricValues))
    (hstore : (store.map Prod.fst).Nodup)
    (hrecords : (records.map Prod.fst).Nodup) :
    ingestSnapshot (ingestSnapshot store records) records = ingestSnapshot store records ∧
    ((ingestSnapshot store records).map Prod.fst).Nodup := by
  constructor
  · exact foldl_mapSet_idem records hrecords store
  · exact foldl_mapSet_keys_nodup records store hstore

/-- Witness for C7 at a concrete snapshot of two records for title 7 at
2021-02-13. -/
theorem c7_upsert_idempotent_witness :
    ((([(⟨7, "I", "1.1", "2021-02-13"⟩, ⟨100, 5, 60⟩),
        (⟨7, "I", "1.2", "2021-02-13"⟩, ⟨50, 2, 70⟩)] :
          List (RecordKey × MetricValues)).map Prod.fst).Nodup) ∧
    (ingestSnapshot (ingestSnapshot []
        [(⟨7, "I", "1.1", "2021-02-13"⟩, ⟨100, 5, 60⟩),
         (⟨7, "I", "1.2", "2021-02-13"⟩, ⟨50, 2, 70⟩)])
        [(⟨7, "I", "1.1", "2021-02-13"⟩, ⟨100, 5, 60⟩),
         (⟨7, "I", "1.2", "2021-02-13"⟩, ⟨50, 2, 70⟩)] =
      ingestSnapshot []
        [(⟨7, "I", "1.1", "2021-02-13"⟩, ⟨100, 5, 60⟩),
         (⟨7, "I", "1.2", "2021-02-13"⟩, ⟨50, 2, 70⟩)] ∧
      ((ingestSnapshot ([] : List (RecordKey × MetricValues))
        [(⟨7, "I", "1.1", "2021-02-13"⟩, ⟨100, 5, 60⟩),
         (⟨7, "I", "1.2", "2021-02-13"⟩, ⟨50, 2, 70⟩)]).map Prod.fst).Nodup) :=
  ⟨by decide,
   c7_upsert_idempotent []
     [(⟨7, "I", "1.1", "2021-02-13"⟩, ⟨100, 5, 60⟩),
      (⟨7, "I", "1.2", "2021-02-13"⟩, ⟨50, 2, 70⟩)] (by decide) (by decide)⟩

/-- Claim C8: the facade itself processes every selected group, whatever the
length of the selection; the cap is enforced only by MultiSelect, whose
maximum is the maxSelections parameter (default 3), not a hardcoded 3. -/
theorem c8_no_facade_cap :
    (∀ (env : RpcEnv) (ags : List Agency) (items : List String) (metric : String),
      (agencyResultsOf env ags items metric).length = items.length ∧
      (titleResultsOf env items metric).length = items.length) ∧
    defaultMaxSelections = 3 ∧
    (∀ (maxSel : Nat) (sel : List String) (v : String), v ∉ sel → sel.length < maxSel →
      handleSelectChange maxSel sel v = sel ++ [v]) ∧
    (∀ (maxSel : Nat) (sel : List String) (v : String), v ∉ sel → maxSel ≤ sel.length →
      handleSelectChange maxSel sel v = sel) := by
  refine ⟨?_, rfl, ?_, ?_⟩
  · intro env ags items metric
    constructor
    · rw [agencyResultsOf]
      simp
    · rw [titleResultsOf]
      simp
  · intro maxSel sel v hv hlt
    rw [handleSelectChange, if_neg (fun h => absurd h.2 (Nat.not_le.mpr hlt)), if_neg hv]
  · intro maxSel sel v hv hle
    rw [handleSelectChange, if_pos ⟨hv, hle⟩]

/-- Witness for C8: a five-item selection is fully processed, and the
MultiSelect cap follows the parameter (here 4 and 2), not the constant 3. -/
theorem c8_no_facade_cap_witness :
    (agencyResultsOf envZero [] ["a", "b", "c", "d", "e"] "word_count").length = 5 ∧
    handleSelectChange 4 ["a", "b", "c"] "d" = ["a", "b", "c", "d"] ∧
    handleSelectChange 2 ["a", "b"] "c" = ["a", "b"] :=
  ⟨(c8_no_facade_cap.1 envZero [] ["a", "b", "c", "d", "e"] "word_count").1,
   c8_no_facade_cap.2.2.1 4 ["a", "b", "c"] "d" (by decide) (by decide),
   c8_no_facade_cap.2.2.2 2 ["a", "b"] "c" (by decide) (by decide)⟩

/-- Claim C9: the exported agencies constant is the registry array sorted
ascending by name; the construction is a pure function of the registry (the
code sorts a spread copy), so the registry value itself is untouched. -/
theorem c9_registry_sorted (registry : List Agency) :
    List.Perm (agenciesOf registry) registry ∧
    List.Pairwise (fun a b => strLe a.name b.name = true) (agenciesOf registry) := by
  constructor
  · rw [agenciesOf]
    exact perm_sortByKey (fun a => a.name) registry
  · rw [agenciesOf]
    exact sorted_sortByKey (fun a => a.name) registry

/-- Claim C10: a queryBy value that is neither agency nor cfr-title yields
the empty list, whatever the selection and metric. -/
theorem c10_unknown_queryBy (env : RpcEnv) (ags : List Agency) (queryBy : String)
    (items : List String) (metric : String) (h1 : queryBy ≠ "agency")
    (h2 : queryBy ≠ "cfr-title") :
    supabaseHandler env ags queryBy items metric = [] := by
  rw [supabaseHandler, if_neg h1, if_neg h2]

/-- Witness for C10 at the unknown queryBy value summary. -/
theorem c10_unknown_queryBy_witness :
    ("summary" ≠ "agency") ∧ ("summary" ≠ "cfr-title") ∧
    supabaseHandler envZero [] "summary" ["1"] "word_count" = [] :=
  ⟨by decide, by decide,
   c10_unknown_queryBy envZero [] "summary" ["1"] "word_count" (by decide) (by decide)⟩


/-- Claim C1: over a fixed set of references, the value an agency reports at
each date is the arithmetic mean of the per-reference values at that date
when the metric is readability_score, and their sum for every other metric
(word_count, mandate_count). -/
theorem c1_mean_for_readability_sum_otherwise (name metric : String)
    (P : List (List DataPoint)) (d : String) (hne : perRefValuesAt P d ≠ []) :
    (∃ dp ∈ combineAgencyPairs name metric P, dp.date = d ∧
        alook dp.cells name = some (some (if metric = "readability_score"
          then (perRefValuesAt P d).sum / ((perRefValuesAt P d).length : ℚ)
          else (perRefValuesAt P d).sum))) ∧
    (∀ dp ∈ combineAgencyPairs name metric P, dp.date = d →
        alook dp.cells name = some (some (if metric = "readability_score"
          then (perRefValuesAt P d).sum / ((perRefValuesAt P d).length : ℚ)
          else (perRefValuesAt P d).sum))) := by
  have h := combine_char name metric P d hne
  have hlen : 0 < (perRefValuesAt P d).length := List.length_pos.mpr hne
  have hagg : aggrOf metric ((perRefValuesAt P d).sum, (perRefValuesAt P d).length) =
      some (if metric = "readability_score"
        then (perRefValuesAt P d).sum / ((perRefValuesAt P d).length : ℚ)
        else (perRefValuesAt P d).sum) := by
    rw [aggrOf]
    by_cases hm : metric = "readability_score"
    · rw [if_pos hm, if_pos hlen, if_pos hm]
    · rw [if_neg hm, if_neg hm]
  rw [hagg] at h
  exact h

/-- Witness for C1: two references scoring 60 and 80 at one date yield the
mean under readability_score. -/
theorem c1_mean_for_readability_sum_otherwise_witness :
    (perRefValuesAt [[⟨"2020-02-13", [("1-I", some 60)]⟩],
        [⟨"2020-02-13", [("2-II", some 80)]⟩]] "2020-02-13" ≠ []) ∧
    ((∃ dp ∈ combineAgencyPairs "Department X" "readability_score"
          [[⟨"2020-02-13", [("1-I", some 60)]⟩], [⟨"2020-02-13", [("2-II", some 80)]⟩]],
        dp.date = "2020-02-13" ∧
        alook dp.cells "Department X" = some (some (if "readability_score" = "readability_score"
          then (perRefValuesAt [[⟨"2020-02-13", [("1-I", some 60)]⟩],
              [⟨"2020-02-13", [("2-II", some 80)]⟩]] "2020-02-13").sum /
            ((perRefValuesAt [[⟨"2020-02-13", [("1-I", some 60)]⟩],
              [⟨"2020-02-13", [("2-II", some 80)]⟩]] "2020-02-13").length : ℚ)
          else (perRefValuesAt [[⟨"2020-02-13", [("1-I", some 60)]⟩],
              [⟨"2020-02-13", [("2-II", some 80)]⟩]] "2020-02-13").sum))) ∧
     (∀ dp ∈ combineAgencyPairs "Department X" "readability_score"
          [[⟨"2020-02-13", [("1-I", some 60)]⟩], [⟨"2020-02-13", [("2-II", some 80)]⟩]],
        dp.date = "2020-02-13" →
        alook dp.cells "Department X" = some (some (if "readability_score" = "readability_score"
          then (perRefValuesAt [[⟨"2020-02-13", [("1-I", some 60)]⟩],
              [⟨"2020-02-13", [("2-II", some 80)]⟩]] "2020-02-13").sum /
            ((perRefValuesAt [[⟨"2020-02-13", [("1-I", some 60)]⟩],
              [⟨"2020-02-13", [("2-II", some 80)]⟩]] "2020-02-13").length : ℚ)
          else (perRefValuesAt [[⟨"2020-02-13", [("1-I", some 60)]⟩],
              [⟨"2020-02-13", [("2-II", some 80)]⟩]] "2020-02-13").sum)))) :=
  ⟨by decide,
   c1_mean_for_readability_sum_otherwise "Department X" "readability_score"
     [[⟨"2020-02-13", [("1-I", some 60)]⟩], [⟨"2020-02-13", [("2-II", some 80)]⟩]]
     "2020-02-13" (by decide)⟩

/-- Claim C3: for both query branches, the returned table has exactly one
row per distinct date appearing in any requested group series (pairwise
distinct row dates, and a row exists for a date exactly when some series
holds it), every requested group is present as a key in every row, and the
rows are sorted by date ascending. -/
theorem c3_dense_sorted_table (env : RpcEnv) (ags : List Agency) (queryBy : String)
    (items : List String) (metric : String)
    (hqb : queryBy = "agency" ∨ queryBy = "cfr-title") :
    ((supabaseHandler env ags queryBy items metric).map (fun dp => dp.date)).Nodup ∧
    (∀ d, (∃ row ∈ supabaseHandler env ags queryBy items metric, row.date = d) ↔
      ∃ s ∈ seriesListOf env ags queryBy items metric, ∃ dp ∈ s, dp.date = d) ∧
    (∀ row ∈ supabaseHandler env ags queryBy items metric, ∀ g ∈ items,
      (alook row.cells g).isSome) ∧
    List.Pairwise (fun x y => strLe x.date y.date = true)
      (supabaseHandler env ags queryBy items metric) := by
  rcases hqb with h | h
  · subst h
    rw [handler_agency_eq, seriesListOf, if_pos rfl]
    refine ⟨(mergedRows_dates _ _ _).1, ?_, mergedRows_keys_present _ _ _,
      mergedRows_sorted _ _ _⟩
    intro d
    rw [mergedRows_date_iff, mem_allDatesOf]
  · subst h
    rw [handler_title_eq, seriesListOf, if_neg (by decide)]
    refine ⟨(mergedRows_dates _ _ _).1, ?_, mergedRows_keys_present _ _ _,
      mergedRows_sorted _ _ _⟩
    intro d
    rw [mergedRows_date_iff, mem_allDatesOf]

/-- Witness for C3 on a one-title request. -/
theorem c3_dense_sorted_table_witness :
    ((supabaseHandler envZero [] "cfr-title" ["1"] "word_count").map
      (fun dp => dp.date)).Nodup ∧
    (∀ d, (∃ row ∈ supabaseHandler envZero [] "cfr-title" ["1"] "word_count",
        row.date = d) ↔
      ∃ s ∈ seriesListOf envZero [] "cfr-title" ["1"] "word_count", ∃ dp ∈ s, dp.date = d) ∧
    (∀ row ∈ supabaseHandler envZero [] "cfr-title" ["1"] "word_count", ∀ g ∈ ["1"],
      (alook row.cells g).isSome) ∧
    List.Pairwise (fun x y => strLe x.date y.date = true)
      (supabaseHandler envZero [] "cfr-title" ["1"] "word_count") :=
  c3_dense_sorted_table envZero [] "cfr-title" ["1"] "word_count" (Or.inr rfl)


/-- Claim C4: per-reference values of an agency are combined per date before
aggregation: for any summed metric, the handler reports, at each date with
contributions, a single row whose cell for the agency is the sum of all
per-reference values at that date. -/
theorem c4_combine_per_date_then_aggregate (env : RpcEnv) (ags : List Agency)
    (items : List String) (metric name d : String) (hmem : name ∈ items)
    (hmetric : metric ≠ "readability_score")
    (hne : perRefValuesAt (pairResultsOf env ags metric name) d ≠ []) :
    (∃ row ∈ supabaseHandler env ags "agency" items metric, row.date = d ∧
        alook row.cells name =
          some (some (perRefValuesAt (pairResultsOf env ags metric name) d).sum)) ∧
    (∀ row ∈ supabaseHandler env ags "agency" items metric, row.date = d →
        alook row.cells name =
          some (some (perRefValuesAt (pairResultsOf env ags metric name) d).sum)) := by
  have hT : alook (tallyPairs (pairResultsOf env ags metric name)) d =
      some ((perRefValuesAt (pairResultsOf env ags metric name) d).sum,
            (perRefValuesAt (pairResultsOf env ags metric name) d).length) := by
    rw [alook_tallyPairs, if_neg hne]
  have haggr : aggrOf metric ((perRefValuesAt (pairResultsOf env ags metric name) d).sum,
      (perRefValuesAt (pairResultsOf env ags metric name) d).length) =
      some (perRefValuesAt (pairResultsOf env ags metric name) d).sum := by
    rw [aggrOf, if_neg hmetric]
  have hdpT : (⟨d, [(name, aggrOf metric
      ((perRefValuesAt (pairResultsOf env ags metric name) d).sum,
       (perRefValuesAt (pairResultsOf env ags metric name) d).length))]⟩ : DataPoint) ∈
      agencySeries env ags metric name := by
    rw [agencySeries_eq_combine, combineAgencyPairs_eq]
    exact List.mem_map_of_mem _ (alook_mem hT)
  have hseries : agencySeries env ags metric name ∈ agencyResultsOf env ags items metric := by
    rw [agencyResultsOf]
    exact List.mem_map_of_mem _ hmem
  have hdmem : d ∈ allDatesOf (agencyResultsOf env ags items metric) := by
    rw [mem_allDatesOf]
    exact ⟨_, hseries, _, hdpT, rfl⟩
  have hsome : (alook (initRows items
      (allDatesOf (agencyResultsOf env ags items metric))) d).isSome := by
    rw [alook_isSome_iff, keys_initRows _ _ (nodup_allDatesOf _)]
    exact hdmem
  have hwrites : ∀ w ∈ writesA (agencyResultsOf env ags items metric),
      w.1 = d → w.2.1 = name →
      w.2.2 = some (perRefValuesAt (pairResultsOf env ags metric name) d).sum := by
    intro w hw hwd hwn
    rcases mem_writesA.mp hw with ⟨s, hs, dp, hdp, kv, hkv, he⟩
    rw [agencyResultsOf] at hs
    rcases List.mem_map.mp hs with ⟨g2, _, hs2⟩
    rw [← hs2, agencySeries_eq_combine] at hdp
    rcases mem_combine_shape hdp with ⟨e, heT, hdpe⟩
    rw [hdpe] at hkv
    have hkve : kv = (g2, aggrOf metric e.2) := by simpa using hkv
    have hg2name : g2 = name := by
      rw [he] at hwn
      simp only at hwn
      rw [hkve] at hwn
      exact hwn
    have hedd : e.1 = d := by
      rw [he] at hwd
      simp only at hwd
      rw [hdpe] at hwd
      exact hwd
    rw [hg2name] at heT
    have he2 : e.2 = ((perRefValuesAt (pairResultsOf env ags metric name) d).sum,
        (perRefValuesAt (pairResultsOf env ags metric name) d).length) := by
      have hl : alook (tallyPairs (pairResultsOf env ags metric name)) e.1 = some e.2 :=
        alook_of_mem_nodup (keys_nodup_tallyPairs _)
          (by rw [← Prod.mk.eta (p := e)] at heT; exact heT)
      rw [hedd, hT] at hl
      exact (Option.some_inj.mp hl).symm
    rw [he]
    simp only
    rw [hkve]
    simp only
    rw [he2, haggr]
  have hexw : ∃ w ∈ writesA (agencyResultsOf env ags items metric),
      w.1 = d ∧ w.2.1 = name := by
    refine ⟨(d, name, aggrOf metric
      ((perRefValuesAt (pairResultsOf env ags metric name) d).sum,
       (perRefValuesAt (pairResultsOf env ags metric name) d).length)), ?_, rfl, rfl⟩
    rw [mem_writesA]
    exact ⟨agencySeries env ags metric name, hseries, _, hdpT,
      (name, aggrOf metric ((perRefValuesAt (pairResultsOf env ags metric name) d).sum,
        (perRefValuesAt (pairResultsOf env ags metric name) d).length)),
      by simp, rfl⟩
  rcases applyWrites_cellVal name d
      (some (perRefValuesAt (pairResultsOf env ags metric name) d).sum)
      (writesA (agencyResultsOf env ags items metric))
      (initRows items (allDatesOf (agencyResultsOf env ags items metric)))
      hwrites hsome (Or.inl hexw) with ⟨dpR, hR, hRcell⟩
  rw [handler_agency_eq]
  have hrowmem := mergedRows_row_of_alook items (agencyResultsOf env ags items metric)
    (writesA (agencyResultsOf env ags items metric)) hR
  constructor
  · exact ⟨dpR, hrowmem.1, hrowmem.2, hRcell⟩
  · intro row hrow hrowd
    have hu := mergedRows_unique_row items (agencyResultsOf env ags items metric)
      (writesA (agencyResultsOf env ags items metric)) hrow hrowd
    rw [hR] at hu
    rw [← Option.some_inj.mp hu]
    exact hRcell

/-- Witness for C4: Department X has references contributing 100 and 150 at
2020-02-13 and the handler reports the single combined word_count row. -/
theorem c4_combine_per_date_then_aggregate_witness :
    (perRefValuesAt (pairResultsOf envDeptX regDeptX "word_count" "Department X")
      "2020-02-13" ≠ []) ∧
    ((∃ row ∈ supabaseHandler envDeptX regDeptX "agency" ["Department X"] "word_count",
        row.date = "2020-02-13" ∧
        alook row.cells "Department X" =
          some (some (perRefValuesAt (pairResultsOf envDeptX regDeptX "word_count"
            "Department X") "2020-02-13").sum)) ∧
     (∀ row ∈ supabaseHandler envDeptX regDeptX "agency" ["Department X"] "word_count",
        row.date = "2020-02-13" →
        alook row.cells "Department X" =
          some (some (perRefValuesAt (pairResultsOf envDeptX regDeptX "word_count"
            "Department X") "2020-02-13").sum))) :=
  ⟨by decide,
   c4_combine_per_date_then_aggregate envDeptX regDeptX ["Department X"] "word_count"
     "Department X" "2020-02-13" (by decide) (by decide) (by decide)⟩


/-- Claim C5: for every facade request in which the backing-store read for
one group fails, the request still succeeds and returns a table.  Agency
branch: when every pair read of the requested agency returns an error, the
agency contributes an empty series and its column is null at every emitted
date.  Cfr-title branch: when the title read returns an error, the title
contributes an empty series and its column is null at every emitted date.
And in general, for either branch (and any other queryBy), the output equals
the output over the environment in which every failing read is replaced by
an empty result set: read errors are absorbed as absent data, the other
requested groups resolve normally, and the facade never raises for partial
data. -/
theorem c5_failed_read_never_raises :
    (∀ (env : RpcEnv) (ags : List Agency) (items : List String) (metric name : String),
      name ∈ items →
      (∀ a ∈ ags, a.name = name →
        ∀ r ∈ a.cfr_references.filter (fun r2 => r2.chapter.isSome),
          ∃ msg, env.pairsRpc [toString r.title] [r.chapter.getD ""] metric = .error msg) →
      agencySeries env ags metric name = [] ∧
      (∀ row ∈ supabaseHandler env ags "agency" items metric,
        alook row.cells name = some none)) ∧
    (∀ (env : RpcEnv) (ags : List Agency) (items : List String) (metric t msg : String),
      t ∈ items → env.titleRpc t metric = .error msg →
      getMetricTotalForTitle env t metric = [] ∧
      (∀ row ∈ supabaseHandler env ags "cfr-title" items metric,
        alook row.cells t = some none)) ∧
    (∀ (env : RpcEnv) (ags : List Agency) (queryBy : String) (items : List String)
        (metric : String),
      supabaseHandler env ags queryBy items metric =
        supabaseHandler (errorsAsEmpty env) ags queryBy items metric) := by
  refine ⟨?_, ?_, ?_⟩
  · intro env ags items metric name hmem hfail
    have h1 : agencySeries env ags metric name = [] := by
      rw [agencySeries]
      rcases hf : ags.find? (fun a => a.name == name) with _ | a
      · simp only [hf]
      · simp only [hf]
        have hmem2 : a ∈ ags := List.mem_of_find?_eq_some hf
        have hname : a.name = name := by simpa using List.find?_some hf
        by_cases he : a.cfr_references.isEmpty
        · simp only [if_pos he]
        · simp only [if_neg he]
          apply combineAgencyPairs_nil_of_all_nil
          intro s hs
          rcases List.mem_map.mp hs with ⟨r, hr, hfr⟩
          rcases hfail a hmem2 hname r hr with ⟨msg, herr⟩
          rw [← hfr, getMetricTotalForPairs, herr]
    exact ⟨h1, allnull_column_of_empty_series env ags items metric name hmem h1⟩
  · intro env ags items metric t msg hmem herr
    have h1 : getMetricTotalForTitle env t metric = [] := by
      rw [getMetricTotalForTitle, herr]
    refine ⟨h1, ?_⟩
    intro row hrow
    rw [handler_title_eq, mergedRows, mem_sortByKey] at hrow
    rcases List.mem_map.mp hrow with ⟨p, hp, he⟩
    rw [← he]
    refine applyWrites_pres t _ _ ?_ ?_ p hp
    · intro w hw
      rcases mem_writesT.mp hw with ⟨q, hq, dp, hdp, hwe⟩
      rw [titleResultsOf] at hq
      rcases mem_zip_map hq with ⟨hq1, _⟩
      intro hcon
      rw [hwe] at hcon
      simp only at hcon
      rw [hcon] at hq1
      rw [h1] at hq1
      rw [hq1] at hdp
      simp at hdp
    · intro p2 hp2
      rw [initRows_eq _ _ (nodup_allDatesOf _)] at hp2
      rcases List.mem_map.mp hp2 with ⟨d2, _, he2⟩
      rw [← he2]
      show alook (initCells items) t = some none
      rw [alook_initCells, if_pos hmem]
  · intro env ags queryBy items metric
    by_cases h1 : queryBy = "agency"
    · subst h1
      rw [handler_agency_eq, handler_agency_eq]
      have hAR : agencyResultsOf (errorsAsEmpty env) ags items metric =
          agencyResultsOf env ags items metric := by
        rw [agencyResultsOf, agencyResultsOf]
        apply List.map_congr_left
        intro g _
        exact agencySeries_errorsAsEmpty env ags metric g
      rw [hAR]
    · by_cases h2 : queryBy = "cfr-title"
      · subst h2
        rw [handler_title_eq, handler_title_eq]
        have hTR : titleResultsOf (errorsAsEmpty env) items metric =
            titleResultsOf env items metric := by
          rw [titleResultsOf, titleResultsOf]
          apply List.map_congr_left
          intro t _
          exact getMetricTotalForTitle_errorsAsEmpty env t metric
        rw [hTR]
      · rw [supabaseHandler, if_neg h1, if_neg h2,
          supabaseHandler, if_neg h1, if_neg h2]

/-- Witness for C5: an agency whose every pair read fails contributes an
empty series and an all-null column; of two selected titles the read for
title 2 fails and its column is all null; and on the failing environment the
facade output equals the output over the blanked environment. -/
theorem c5_failed_read_never_raises_witness :
    ("Department X" ∈ ["Department X"]) ∧
    (agencySeries envPairsFail regDeptX "word_count" "Department X" = [] ∧
     (∀ row ∈ supabaseHandler envPairsFail regDeptX "agency"
        ["Department X"] "word_count",
        alook row.cells "Department X" = some none)) ∧
    ("2" ∈ ["1", "2"]) ∧
    (envFail.titleRpc "2" "word_count" = .error "backend overload") ∧
    (getMetricTotalForTitle envFail "2" "word_count" = [] ∧
     (∀ row ∈ supabaseHandler envFail [] "cfr-title" ["1", "2"] "word_count",
        alook row.cells "2" = some none)) ∧
    (supabaseHandler envFail [] "cfr-title" ["1", "2"] "word_count" =
      supabaseHandler (errorsAsEmpty envFail) [] "cfr-title" ["1", "2"] "word_count") :=
  ⟨by decide,
   c5_failed_read_never_raises.1 envPairsFail regDeptX ["Department X"] "word_count"
     "Department X" (by decide)
     (fun a _ _ r _ => ⟨"backend overload", rfl⟩),
   by decide, by rfl,
   c5_failed_read_never_raises.2.1 envFail [] ["1", "2"] "word_count" "2"
     "backend overload" (by decide) (by rfl),
   c5_failed_read_never_raises.2.2 envFail [] "cfr-title" ["1", "2"] "word_count"⟩

/-- Claim C6: references without a chapter are excluded; an agency with no
valid reference (unknown, empty reference list, or no reference carrying a
chapter) yields an empty series rather than an error, its cell is null in
every emitted row, and the facade still emits the date rows contributed by
the other requested groups. -/
theorem c6_invalid_refs_empty_series (env : RpcEnv) (ags : List Agency)
    (items : List String) (metric name : String) (hmem : name ∈ items)
    (hrefs : ∀ a ∈ ags, a.name = name →
      a.cfr_references.filter (fun r => r.chapter.isSome) = []) :
    agencySeries env ags metric name = [] ∧
    (∀ row ∈ supabaseHandler env ags "agency" items metric,
      alook row.cells name = some none) ∧
    (∀ g ∈ items, ∀ dp ∈ agencySeries env ags metric g,
      ∃ row ∈ supabaseHandler env ags "agency" items metric, row.date = dp.date) := by
  have h1 := agencySeries_empty env ags metric name hrefs
  refine ⟨h1, allnull_column_of_empty_series env ags items metric name hmem h1, ?_⟩
  intro g hg dp hdp
  have hs : agencySeries env ags metric g ∈ agencyResultsOf env ags items metric := by
    rw [agencyResultsOf]
    exact List.mem_map_of_mem _ hg
  have hd : dp.date ∈ allDatesOf (agencyResultsOf env ags items metric) := by
    rw [mem_allDatesOf]
    exact ⟨_, hs, dp, hdp, rfl⟩
  have hsome : (alook (applyWrites
      (initRows items (allDatesOf (agencyResultsOf env ags items metric)))
      (writesA (agencyResultsOf env ags items metric))) dp.date).isSome := by
    rw [alook_isSome_iff, merge_keys]
    exact hd
  rcases Option.isSome_iff_exists.mp hsome with ⟨row, hrow⟩
  have h2 := mergedRows_row_of_alook items (agencyResultsOf env ags items metric)
    (writesA (agencyResultsOf env ags items metric)) hrow
  rw [handler_agency_eq]
  exact ⟨row, h2.1, h2.2⟩

/-- Witness for C6: an agency whose single reference has no chapter, next to
an agency with data: its series is empty, its column null, and the dated
rows of the other agency are still emitted. -/
theorem c6_invalid_refs_empty_series_witness :
    ("No Chapters" ∈ ["Department X", "No Chapters"]) ∧
    (agencySeries envDeptX regMixed "word_count" "No Chapters" = [] ∧
     (∀ row ∈ supabaseHandler envDeptX regMixed "agency"
        ["Department X", "No Chapters"] "word_count",
        alook row.cells "No Chapters" = some none) ∧
     (∀ g ∈ ["Department X", "No Chapters"],
        ∀ dp ∈ agencySeries envDeptX regMixed "word_count" g,
        ∃ row ∈ supabaseHandler envDeptX regMixed "agency"
          ["Department X", "No Chapters"] "word_count", row.date = dp.date)) :=
  ⟨by decide,
   c6_invalid_refs_empty_series envDeptX regMixed ["Department X", "No Chapters"]
     "word_count" "No Chapters" (by decide) (by decide)⟩

end ECFR
